import Mathlib

/-
Verification of the doc_processing pipeline (screenshot -> OCR -> merge).

The Python sources are shallowly embedded: strings are lists of Unicode code
points (`List Nat`), pure helpers become Lean functions, and effectful code
(file system, subprocesses, API streams) is given an explicit state / oracle
so that the control flow of the source can be followed line by line.
-/

namespace DocProc

/-- Convert a Lean string literal to the code-point representation used by the
embedding; only used to write concrete examples. -/
def codes (s : String) : List Nat := s.toList.map Char.toNat

/-- Character-level embedding of Python `str.isdigit` for the ASCII range that
the pipeline's filenames use (`img_to_pdf.py` line 43 applies `isdigit` to
parts produced by `re.split` on digit runs). -/
def isDigit (c : Nat) : Bool := decide (48 ≤ c ∧ c ≤ 57)

/-- Character-level embedding of Python `str.lower` for the ASCII range. -/
def pyLower (c : Nat) : Nat := if 65 ≤ c ∧ c ≤ 90 then c + 32 else c

/-- One element of the list returned by `natural_sort_key`
(`img_to_pdf.py` line 43): a digit run becomes `int(part)` and every other
part becomes `part.lower()`. -/
inductive NKey where
  | str (s : List Nat)
  | num (n : Nat)
deriving DecidableEq, Repr

/-- State machine equivalent to `re.split` on maximal digit runs followed by
the per-part conversion of `natural_sort_key` (`img_to_pdf.py` line 43).
`Sum.inl acc` is "collecting a non-digit part `acc`", `Sum.inr n` is
"collecting a digit part whose numeric value so far is `n`".  The output
alternates `NKey.str`/`NKey.num`, starting and ending with a (possibly empty)
`NKey.str`, exactly like the Python comprehension over `re.split` parts. -/
def nskGo : List Nat → Sum (List Nat) Nat → List NKey
  | [], Sum.inl acc => [NKey.str (acc.map pyLower)]
  | [], Sum.inr n => [NKey.num n, NKey.str []]
  | c :: cs, Sum.inl acc =>
    if isDigit c then NKey.str (acc.map pyLower) :: nskGo cs (Sum.inr (c - 48))
    else nskGo cs (Sum.inl (acc ++ [c]))
  | c :: cs, Sum.inr n =>
    if isDigit c then nskGo cs (Sum.inr (n * 10 + (c - 48)))
    else NKey.num n :: nskGo cs (Sum.inl [c])

/-- The key computed by `natural_sort_key` for a plain string argument. -/
def natKeyStr (s : List Nat) : List NKey := nskGo s (Sum.inl [])

/-- Embedding of a Python `pathlib.Path`: the directory part and the final
component (`Path.name`). -/
structure PyPath where
  parent : List Nat
  name : List Nat
deriving DecidableEq, Repr

/-- Argument of `natural_sort_key`: the source accepts either a `Path` or a
string (`img_to_pdf.py` lines 37-40). -/
inductive PathOrStr where
  | path (p : PyPath)
  | strArg (s : List Nat)
deriving DecidableEq, Repr

/-- The text that `natural_sort_key` actually splits: `path.name` for a
`Path`, `str(path)` for anything else (`img_to_pdf.py` lines 37-40). -/
def textOfInput : PathOrStr → List Nat
  | PathOrStr.path p => p.name
  | PathOrStr.strArg s => s

/-- Embedding of `natural_sort_key` (`img_to_pdf.py` lines 26-43). -/
def natural_sort_key (x : PathOrStr) : List NKey := natKeyStr (textOfInput x)

/-- Numeric value of a digit run, i.e. Python `int(part)` on a string of
decimal digits. -/
def digitsVal (d : List Nat) : Nat := d.foldl (fun m c => m * 10 + (c - 48)) 0

/-- Python's comparison of two lists of comparable values: scan for the first
position where the elements differ (Python `==`), and compare there; a strict
prefix is smaller. -/
def lexLt {α : Type} [DecidableEq α] (lt : α → α → Bool) : List α → List α → Bool
  | _, [] => false
  | [], _ :: _ => true
  | a :: as, b :: bs => if a = b then lexLt lt as bs else lt a b

/-- Element order used inside `natural_sort_key` lists: Python compares two
ints numerically and two strings lexicographically by code point.  Keys
produced by `natural_sort_key` alternate `str`/`num` in the same positions,
so two such keys never compare an int against a string at their first
difference (in Python that would raise `TypeError`); the mixed cases below are
therefore never exercised and are fixed arbitrarily. -/
def nkLt : NKey → NKey → Bool
  | NKey.num m, NKey.num n => decide (m < n)
  | NKey.str s, NKey.str t => lexLt (fun a b => decide (a < b)) s t
  | NKey.num _, NKey.str _ => true
  | NKey.str _, NKey.num _ => false

/-- Python `<` on two `natural_sort_key` results (list comparison). -/
def keyLt (x y : List NKey) : Bool := lexLt nkLt x y

theorem lexLt_irrefl {α : Type} [DecidableEq α] (lt : α → α → Bool) :
    ∀ s, lexLt lt s s = false := by
  intro s
  induction s with
  | nil => rfl
  | cons a as ih => simp [lexLt, ih]

theorem lexLt_trans {α : Type} [DecidableEq α] (lt : α → α → Bool)
    (hirr : ∀ a, lt a a = false)
    (htr : ∀ a b c, lt a b = true → lt b c = true → lt a c = true) :
    ∀ s t u, lexLt lt s t = true → lexLt lt t u = true → lexLt lt s u = true := by
  intro s
  induction s with
  | nil =>
    intro t u hst htu
    cases t with
    | nil => simp [lexLt] at hst
    | cons b bs =>
      cases u with
      | nil => simp [lexLt] at htu
      | cons c cs => simp [lexLt]
  | cons a as ih =>
    intro t u hst htu
    cases t with
    | nil => simp [lexLt] at hst
    | cons b bs =>
      cases u with
      | nil => simp [lexLt] at htu
      | cons c cs =>
        simp only [lexLt] at hst htu ⊢
        by_cases hab : a = b
        · subst hab
          rw [if_pos rfl] at hst
          by_cases hac : a = c
          · subst hac
            rw [if_pos rfl] at htu ⊢
            exact ih bs cs hst htu
          · rw [if_neg hac] at htu ⊢
            exact htu
        · rw [if_neg hab] at hst
          by_cases hbc : b = c
          · subst hbc
            by_cases hac : a = b
            · exact absurd hac hab
            · rw [if_neg hac]
              exact hst
          · rw [if_neg hbc] at htu
            by_cases hac : a = c
            · subst hac
              have := htr a b a hst htu
              rw [hirr a] at this
              exact absurd this (by simp)
            · rw [if_neg hac]
              exact htr a b c hst htu

theorem lexLt_conn {α : Type} [DecidableEq α] (lt : α → α → Bool)
    (hconn : ∀ a b, lt a b = false → lt b a = false → a = b) :
    ∀ s t, lexLt lt s t = false → lexLt lt t s = false → s = t := by
  intro s
  induction s with
  | nil =>
    intro t hst _
    cases t with
    | nil => rfl
    | cons b bs => simp [lexLt] at hst
  | cons a as ih =>
    intro t hst hts
    cases t with
    | nil => simp [lexLt] at hts
    | cons b bs =>
      simp only [lexLt] at hst hts
      by_cases hab : a = b
      · subst hab
        rw [if_pos rfl] at hst hts
        rw [ih bs hst hts]
      · rw [if_neg hab] at hst
        rw [if_neg (fun h => hab h.symm)] at hts
        exact absurd (hconn a b hst hts) hab

theorem natLtB_irrefl : ∀ a : Nat, decide (a < a) = false := by
  intro a; simp

theorem natLtB_trans : ∀ a b c : Nat,
    decide (a < b) = true → decide (b < c) = true → decide (a < c) = true := by
  intro a b c h1 h2
  simp at h1 h2 ⊢
  omega

theorem natLtB_conn : ∀ a b : Nat,
    decide (a < b) = false → decide (b < a) = false → a = b := by
  intro a b h1 h2
  simp at h1 h2
  omega

theorem nkLt_irrefl : ∀ x : NKey, nkLt x x = false := by
  intro x
  cases x with
  | str s => simp [nkLt, lexLt_irrefl]
  | num n => simp [nkLt]

theorem nkLt_trans : ∀ x y z : NKey,
    nkLt x y = true → nkLt y z = true → nkLt x z = true := by
  intro x y z hxy hyz
  cases x <;> cases y <;> cases z <;> simp [nkLt] at hxy hyz ⊢
  · exact lexLt_conn_aux hxy hyz
  · omega
where
  lexLt_conn_aux {s t u : List Nat}
      (h1 : lexLt (fun a b => decide (a < b)) s t = true)
      (h2 : lexLt (fun a b => decide (a < b)) t u = true) :
      lexLt (fun a b => decide (a < b)) s u = true :=
    lexLt_trans _ natLtB_irrefl natLtB_trans s t u h1 h2

theorem nkLt_conn : ∀ x y : NKey,
    nkLt x y = false → nkLt y x = false → x = y := by
  intro x y hxy hyx
  cases x <;> cases y <;> simp [nkLt] at hxy hyx ⊢
  · exact lexLt_conn _ natLtB_conn _ _ hxy hyx
  · omega

theorem keyLt_irrefl : ∀ x : List NKey, keyLt x x = false := by
  intro x
  exact lexLt_irrefl nkLt x

theorem keyLt_trans : ∀ x y z : List NKey,
    keyLt x y = true → keyLt y z = true → keyLt x z = true := by
  intro x y z
  exact lexLt_trans nkLt nkLt_irrefl nkLt_trans x y z

theorem keyLt_conn : ∀ x y : List NKey,
    keyLt x y = false → keyLt y x = false → x = y := by
  intro x y
  exact lexLt_conn nkLt nkLt_conn x y

/-- The non-strict order in which Python's stable `sorted(files,
key=natural_sort_key)` arranges two elements: `a` may come before `b` unless
`key(b) < key(a)`. -/
def pyKeyLe {α : Type} (key : α → List NKey) (a b : α) : Prop :=
    keyLt (key b) (key a) = false

instance pyKeyLeDec {α : Type} (key : α → List NKey) : DecidableRel (pyKeyLe key) :=
  fun a b => by unfold pyKeyLe; infer_instance

/-- Embedding of Python `sorted(l, key=...)`: a stable sort by the key order.
Python's Timsort and insertion sort are both stable, and all stable sorts by
the same total preorder agree, so `List.insertionSort` is a faithful model. -/
def pySortedBy {α : Type} (key : α → List NKey) (l : List α) : List α :=
    List.insertionSort (fun a b => keyLt (key b) (key a) = false) l

theorem pyKeyLe_total {α : Type} (key : α → List NKey) (a b : α) :
    pyKeyLe key a b ∨ pyKeyLe key b a := by
  unfold pyKeyLe
  by_cases h1 : keyLt (key b) (key a) = false
  · exact Or.inl h1
  · right
    by_cases h2 : keyLt (key a) (key b) = false
    · exact h2
    · exfalso
      have hb : keyLt (key b) (key a) = true := by
        cases h : keyLt (key b) (key a) with
        | false => exact absurd h h1
        | true => rfl
      have ha : keyLt (key a) (key b) = true := by
        cases h : keyLt (key a) (key b) with
        | false => exact absurd h h2
        | true => rfl
      have := keyLt_trans _ _ _ hb ha
      rw [keyLt_irrefl] at this
      exact absurd this (by simp)

theorem pyKeyLe_trans {α : Type} (key : α → List NKey) (a b c : α) :
    pyKeyLe key a b → pyKeyLe key b c → pyKeyLe key a c := by
  unfold pyKeyLe
  intro hab hbc
  by_cases hca : keyLt (key c) (key a) = false
  · exact hca
  · exfalso
    have hca' : keyLt (key c) (key a) = true := by
      cases h : keyLt (key c) (key a) with
      | false => exact absurd h hca
      | true => rfl
    by_cases hba : keyLt (key b) (key a) = true
    · rw [hab] at hba; exact absurd hba (by simp)
    · by_cases hab' : keyLt (key a) (key b) = true
      · have := keyLt_trans _ _ _ hca' hab'
        rw [hbc] at this
        exact absurd this (by simp)
      · have h1 : keyLt (key b) (key a) = false := by
          cases h : keyLt (key b) (key a) with
          | false => rfl
          | true => exact absurd h hba
        have h2 : keyLt (key a) (key b) = false := by
          cases h : keyLt (key a) (key b) with
          | false => rfl
          | true => exact absurd h hab'
        have hk : key a = key b := keyLt_conn _ _ h2 h1
        rw [hk] at hca'
        rw [hbc] at hca'
        exact absurd hca' (by simp)

/-- `pySortedBy` output is sorted in the key order. -/
theorem pySortedBy_sorted {α : Type} (key : α → List NKey) (l : List α) :
    List.Sorted (pyKeyLe key) (pySortedBy key l) := by
  haveI : IsTotal α (pyKeyLe key) := ⟨pyKeyLe_total key⟩
  haveI : IsTrans α (pyKeyLe key) := ⟨pyKeyLe_trans key⟩
  exact List.sorted_insertionSort (pyKeyLe key) l

/-- `pySortedBy` output is a permutation of its input. -/
theorem pySortedBy_perm {α : Type} (key : α → List NKey) (l : List α) :
    (pySortedBy key l).Perm l :=
  List.perm_insertionSort (fun a b => keyLt (key b) (key a) = false) l

theorem orderedInsert_key_map {α : Type} (key : α → List NKey) (f : α → α)
    (hk : ∀ x, key (f x) = key x) (a : α) :
    ∀ l : List α,
      (l.map f).orderedInsert (fun x y => keyLt (key y) (key x) = false) (f a)
        = (l.orderedInsert (fun x y => keyLt (key y) (key x) = false) a).map f := by
  intro l
  induction l with
  | nil => rfl
  | cons b bs ih =>
    simp only [List.map, List.orderedInsert, hk]
    by_cases h : keyLt (key b) (key a) = false
    · rw [if_pos h, if_pos h]
      rfl
    · rw [if_neg h, if_neg h]
      simp only [List.map]
      rw [ih]

/-- Sorting by a key commutes with any element map that preserves the key:
this is where stability of the concrete sort matters. -/
theorem pySortedBy_map_invariant {α : Type} (key : α → List NKey) (f : α → α)
    (hk : ∀ x, key (f x) = key x) (l : List α) :
    pySortedBy key (l.map f) = (pySortedBy key l).map f := by
  induction l with
  | nil => rfl
  | cons a as ih =>
    simp only [pySortedBy, List.map, List.insertionSort] at ih ⊢
    rw [ih]
    exact orderedInsert_key_map key f hk a _

theorem nskGo_nondigit : ∀ (p cs acc : List Nat), (∀ c ∈ p, isDigit c = false) →
    nskGo (p ++ cs) (Sum.inl acc) = nskGo cs (Sum.inl (acc ++ p)) := by
  intro p
  induction p with
  | nil => intro cs acc _; simp
  | cons c p ih =>
    intro cs acc hp
    have hc : isDigit c = false := hp c (by simp)
    simp only [List.cons_append, nskGo, hc]
    rw [if_neg (by simp [hc])]
    rw [List.append_eq, ih cs (acc ++ [c]) (fun x hx => hp x (by simp [hx]))]
    simp

theorem nskGo_digits : ∀ (d cs : List Nat) (n : Nat), (∀ c ∈ d, isDigit c = true) →
    nskGo (d ++ cs) (Sum.inr n)
      = nskGo cs (Sum.inr (d.foldl (fun m c => m * 10 + (c - 48)) n)) := by
  intro d
  induction d with
  | nil => intro cs n _; simp
  | cons c d ih =>
    intro cs n hd
    have hc : isDigit c = true := hd c (by simp)
    simp only [List.cons_append, nskGo, hc, if_pos]
    rw [List.append_eq, ih cs (n * 10 + (c - 48)) (fun x hx => hd x (by simp [hx]))]
    simp [List.foldl]

theorem nskGo_endRun : ∀ (q : List Nat) (n : Nat),
    (∀ c, q.head? = some c → isDigit c = false) →
    nskGo q (Sum.inr n) = NKey.num n :: natKeyStr q := by
  intro q n hq
  cases q with
  | nil => rfl
  | cons c q =>
    have hc : isDigit c = false := hq c rfl
    simp only [nskGo, natKeyStr, hc]
    rw [if_neg (by simp [hc]), if_neg (by simp [hc])]
    simp

/-- A string made of a non-digit part, a maximal digit run and a rest whose
first character is not a digit gets the key Python computes from
`re.split`: the lowercased non-digit part, then `int` of the digit run, then
the key of the rest. -/
theorem natKeyStr_decomp (p d q : List Nat) (hp : ∀ c ∈ p, isDigit c = false)
    (hd0 : d ≠ []) (hd : ∀ c ∈ d, isDigit c = true)
    (hq : ∀ c, q.head? = some c → isDigit c = false) :
    natKeyStr (p ++ d ++ q)
      = NKey.str (p.map pyLower) :: NKey.num (digitsVal d) :: natKeyStr q := by
  unfold natKeyStr
  rw [List.append_assoc, nskGo_nondigit p (d ++ q) [] hp]
  cases d with
  | nil => exact absurd rfl hd0
  | cons c d =>
    have hc : isDigit c = true := hd c (by simp)
    simp only [List.cons_append, nskGo, hc, if_pos, List.nil_append]
    rw [List.append_eq, nskGo_digits d q (c - 48) (fun x hx => hd x (by simp [hx]))]
    rw [nskGo_endRun q _ hq]
    have hv : digitsVal (c :: d) = d.foldl (fun m x => m * 10 + (x - 48)) (c - 48) := by
      simp [digitsVal, List.foldl]
    rw [hv]
    rfl

/-- Two strings sharing a non-digit prefix and ending in maximal digit runs
compare by the numeric value of those runs. -/
theorem natKey_digitRun_lt (p d1 d2 : List Nat) (hp : ∀ c ∈ p, isDigit c = false)
    (h1 : d1 ≠ []) (hd1 : ∀ c ∈ d1, isDigit c = true)
    (h2 : d2 ≠ []) (hd2 : ∀ c ∈ d2, isDigit c = true)
    (hv : digitsVal d1 < digitsVal d2) :
    keyLt (natKeyStr (p ++ d1)) (natKeyStr (p ++ d2)) = true := by
  have e1 : p ++ d1 = p ++ d1 ++ [] := by simp
  have e2 : p ++ d2 = p ++ d2 ++ [] := by simp
  rw [e1, e2]
  rw [natKeyStr_decomp p d1 [] hp h1 hd1 (by intro c hc; simp at hc)]
  rw [natKeyStr_decomp p d2 [] hp h2 hd2 (by intro c hc; simp at hc)]
  have hne : digitsVal d1 ≠ digitsVal d2 := Nat.ne_of_lt hv
  simp [keyLt, lexLt, nkLt, hne, hv]

theorem pyLower_digit (a b : Nat) (h : pyLower a = pyLower b) :
    isDigit a = isDigit b ∧ (isDigit a = true → a = b) := by
  unfold pyLower at h
  split at h <;> split at h <;> rename_i h1 h2 <;>
    simp only [isDigit, decide_eq_decide, decide_eq_true_eq] <;>
    constructor <;> omega

theorem nskGo_lower : ∀ (s t : List Nat), s.map pyLower = t.map pyLower →
    (∀ acc1 acc2 : List Nat, acc1.map pyLower = acc2.map pyLower →
      nskGo s (Sum.inl acc1) = nskGo t (Sum.inl acc2))
    ∧ (∀ n : Nat, nskGo s (Sum.inr n) = nskGo t (Sum.inr n)) := by
  intro s
  induction s with
  | nil =>
    intro t ht
    have : t = [] := by
      cases t with
      | nil => rfl
      | cons d t => simp at ht
    subst this
    constructor
    · intro acc1 acc2 hacc
      simp [nskGo, hacc]
    · intro n; rfl
  | cons c s ih =>
    intro t ht
    cases t with
    | nil => simp at ht
    | cons d t =>
      simp only [List.map] at ht
      have hcd : pyLower c = pyLower d := by
        have := List.cons.injEq (pyLower c) (s.map pyLower) (pyLower d) (t.map pyLower)
        rw [this] at ht
        exact ht.1
      have hts : s.map pyLower = t.map pyLower := by
        have := List.cons.injEq (pyLower c) (s.map pyLower) (pyLower d) (t.map pyLower)
        rw [this] at ht
        exact ht.2
      have hdig := pyLower_digit c d hcd
      constructor
      · intro acc1 acc2 hacc
        simp only [nskGo]
        by_cases hc : isDigit c = true
        · have hd : isDigit d = true := by rw [← hdig.1]; exact hc
          rw [if_pos hc, if_pos hd]
          have hce : c = d := hdig.2 hc
          subst hce
          rw [hacc]
          rw [(ih t hts).2 (c - 48)]
        · have hcf : isDigit c = false := by
            cases hv : isDigit c with
            | false => rfl
            | true => exact absurd hv hc
          have hdf : isDigit d = false := by rw [← hdig.1]; exact hcf
          rw [if_neg (by simp [hcf]), if_neg (by simp [hdf])]
          exact (ih t hts).1 (acc1 ++ [c]) (acc2 ++ [d]) (by simp [hacc, hcd])
      · intro n
        simp only [nskGo]
        by_cases hc : isDigit c = true
        · have hd : isDigit d = true := by rw [← hdig.1]; exact hc
          rw [if_pos hc, if_pos hd]
          have hce : c = d := hdig.2 hc
          subst hce
          exact (ih t hts).2 _
        · have hcf : isDigit c = false := by
            cases hv : isDigit c with
            | false => rfl
            | true => exact absurd hv hc
          have hdf : isDigit d = false := by rw [← hdig.1]; exact hcf
          rw [if_neg (by simp [hcf]), if_neg (by simp [hdf])]
          rw [(ih t hts).1 [c] [d] (by simp [hcd])]

/-- Keys of `natural_sort_key` ignore the letter case of non-digit
characters. -/
theorem natKeyStr_lower (s t : List Nat) (h : s.map pyLower = t.map pyLower) :
    natKeyStr s = natKeyStr t :=
  (nskGo_lower s t h).1 [] [] rfl

/-- Claim C1: sorting filenames with `natural_sort_key` produces a
permutation of the input sorted in the key order; the key of a string is its
`re.split` decomposition with maximal digit runs replaced by their numeric
value and the other runs lowercased, and two names sharing a non-digit prefix
followed by digit runs compare by the numeric value of those runs; in
particular `page_2`, `page_10`, `page_1` sort to `page_1, page_2, page_10`. -/
theorem c1_natural_sort_order :
    (pySortedBy natKeyStr [codes "page_2", codes "page_10", codes "page_1"]
      = [codes "page_1", codes "page_2", codes "page_10"])
    ∧ (∀ l : List (List Nat), List.Sorted (pyKeyLe natKeyStr) (pySortedBy natKeyStr l)
        ∧ (pySortedBy natKeyStr l).Perm l)
    ∧ (∀ p d q : List Nat, (∀ c ∈ p, isDigit c = false) → d ≠ [] →
        (∀ c ∈ d, isDigit c = true) → (∀ c, q.head? = some c → isDigit c = false) →
        natKeyStr (p ++ d ++ q)
          = NKey.str (p.map pyLower) :: NKey.num (digitsVal d) :: natKeyStr q)
    ∧ (∀ p d1 d2 : List Nat, (∀ c ∈ p, isDigit c = false) →
        d1 ≠ [] → (∀ c ∈ d1, isDigit c = true) →
        d2 ≠ [] → (∀ c ∈ d2, isDigit c = true) →
        digitsVal d1 < digitsVal d2 →
        keyLt (natKeyStr (p ++ d1)) (natKeyStr (p ++ d2)) = true) :=
  ⟨by decide, fun l => ⟨pySortedBy_sorted _ l, pySortedBy_perm _ l⟩,
   natKeyStr_decomp, natKey_digitRun_lt⟩

/-- Concrete instantiation of the decomposition and digit-run clauses of C1:
the key of `page_9`, and that `page_9` sorts strictly before `page_10`. -/
theorem c1_natural_sort_order_witness :
    natKeyStr (codes "page_" ++ codes "9" ++ [])
      = NKey.str ((codes "page_").map pyLower)
          :: NKey.num (digitsVal (codes "9")) :: natKeyStr []
    ∧ keyLt (natKeyStr (codes "page_" ++ codes "9"))
        (natKeyStr (codes "page_" ++ codes "10")) = true :=
  ⟨c1_natural_sort_order.2.2.1 (codes "page_") (codes "9") []
      (by decide) (by decide) (by decide) (by decide),
   c1_natural_sort_order.2.2.2 (codes "page_") (codes "9") (codes "10")
      (by decide) (by decide) (by decide) (by decide) (by decide) (by decide)⟩

/-- Claim C10: `natural_sort_key` ignores the letter case of non-digit
characters and, for `Path` inputs, depends only on the final path component;
hence two paths whose base names differ only in case get equal keys, and
re-rooting every file into another directory leaves the sorted order
unchanged. -/
theorem c10_key_case_and_parent :
    (∀ pa pb : PyPath, pa.name.map pyLower = pb.name.map pyLower →
      natural_sort_key (PathOrStr.path pa) = natural_sort_key (PathOrStr.path pb))
    ∧ (∀ (d : List Nat) (l : List PyPath),
        pySortedBy (fun p => natural_sort_key (PathOrStr.path p))
            (l.map fun p => PyPath.mk d p.name)
          = (pySortedBy (fun p => natural_sort_key (PathOrStr.path p)) l).map
              fun p => PyPath.mk d p.name) := by
  constructor
  · intro pa pb h
    exact natKeyStr_lower _ _ h
  · intro d l
    exact pySortedBy_map_invariant (fun p => natural_sort_key (PathOrStr.path p))
      (fun p => PyPath.mk d p.name) (fun x => rfl) l

/-- Concrete instantiation of the case-invariance clause of C10: the same
base name in different directories and different case, equal keys. -/
theorem c10_key_case_and_parent_witness :
    natural_sort_key (PathOrStr.path ⟨codes "/scans/run1", codes "Page_10.PDF"⟩)
      = natural_sort_key (PathOrStr.path ⟨codes "/other/dir", codes "page_10.pdf"⟩) :=
  c10_key_case_and_parent.1 ⟨codes "/scans/run1", codes "Page_10.PDF"⟩
    ⟨codes "/other/dir", codes "page_10.pdf"⟩ (by decide)

/-- A per-page PDF as `merge_pdfs` (`img_to_pdf.py` lines 156-222) sees it:
its path name plus an oracle for the three effectful outcomes the loop
depends on — whether `open`/`merger.append` succeeds the first time, whether
`repair_corrupted_pdf` returns `True`, and whether the retry after repair
succeeds. -/
structure PdfFile where
  name : List Nat
  open1 : Bool
  repairOk : Bool
  open2 : Bool
deriving DecidableEq, Repr

/-- The bookkeeping of the `merge_pdfs` loop: pages appended to the merger in
order, `successful_merges`, `failed_files` and `repaired_files` (the latter
three are what the function logs at the end). -/
structure MergeState where
  appended : List PdfFile
  success : Nat
  failed : List PdfFile
  repaired : List PdfFile
deriving DecidableEq, Repr

/-- One iteration of the `for pdf in sorted(pdf_files, ...)` loop of
`merge_pdfs` (`img_to_pdf.py` lines 180-201). -/
def mergeStep (st : MergeState) (f : PdfFile) : MergeState :=
  if f.open1 then
    { st with appended := st.appended ++ [f], success := st.success + 1 }
  else if f.repairOk then
    if f.open2 then
      { st with
          appended := st.appended ++ [f]
          success := st.success + 1
          repaired := st.repaired ++ [f] }
    else { st with failed := st.failed ++ [f] }
  else { st with failed := st.failed ++ [f] }

/-- Key used when `merge_pdfs` sorts its `Path` arguments. -/
def pdfKey (f : PdfFile) : List NKey := natural_sort_key (PathOrStr.strArg f.name)

/-- Tail of `merge_pdfs` (`img_to_pdf.py` lines 203-222): return `None` when
`successful_merges == 0`, otherwise write the merged file and return its path
(`merger.write` is modelled as succeeding; its own I/O exception path is
outside the claims). -/
def mergeFinish (st : MergeState) (mergedPath : List Nat) :
    Option (List Nat) × MergeState :=
  if st.success = 0 then (none, st) else (some mergedPath, st)

/-- Embedding of `merge_pdfs` (`img_to_pdf.py` lines 156-222): loop over the
naturally sorted input, then finish as above. -/
def merge_pdfs (files : List PdfFile) (mergedPath : List Nat) :
    Option (List Nat) × MergeState :=
  mergeFinish ((pySortedBy pdfKey files).foldl mergeStep ⟨[], 0, [], []⟩) mergedPath

/-- A page PDF ends up in the merged output iff it opens at the first try or
repair succeeds and the retry opens. -/
def opensEventually (f : PdfFile) : Bool := f.open1 || (f.repairOk && f.open2)

theorem mergeStep_cases (st : MergeState) (f : PdfFile) :
    mergeStep st f =
      if opensEventually f then
        { st with
            appended := st.appended ++ [f]
            success := st.success + 1
            repaired := if f.open1 then st.repaired else st.repaired ++ [f] }
      else { st with failed := st.failed ++ [f] } := by
  unfold mergeStep opensEventually
  cases h1 : f.open1 <;> cases h2 : f.repairOk <;> cases h3 : f.open2 <;> simp

theorem mergeStep_foldl (l : List PdfFile) : ∀ st : MergeState,
    l.foldl mergeStep st =
      { appended := st.appended ++ l.filter opensEventually,
        success := st.success + (l.filter opensEventually).length,
        failed := st.failed ++ l.filter (fun f => !(opensEventually f)),
        repaired := st.repaired ++
          l.filter (fun f => !f.open1 && (f.repairOk && f.open2)) } := by
  induction l with
  | nil => intro st; simp
  | cons f l ih =>
    intro st
    simp only [List.foldl]
    rw [mergeStep_cases]
    by_cases ho : opensEventually f = true
    · rw [if_pos ho, ih]
      by_cases h1 : f.open1 = true
      · rw [if_pos h1]
        simp [List.filter_cons, ho, h1, List.append_assoc]
        omega
      · have h1f : f.open1 = false := by
          cases hv : f.open1 with
          | false => rfl
          | true => exact absurd hv h1
        have hX : (f.repairOk && f.open2) = true := by
          revert ho
          unfold opensEventually
          simp [h1f]
        rw [if_neg h1]
        simp [List.filter_cons, ho, h1f, hX, List.append_assoc]
        omega
    · have hof : opensEventually f = false := by
        cases hv : opensEventually f with
        | false => rfl
        | true => exact absurd hv ho
      have h1f : f.open1 = false := by
        revert hof
        unfold opensEventually
        cases f.open1 <;> simp
      have hX : (f.repairOk && f.open2) = false := by
        revert hof
        unfold opensEventually
        cases hv : (f.repairOk && f.open2) <;> simp [h1f]
      rw [if_neg ho, ih]
      simp [List.filter_cons, hof, h1f, hX, List.append_assoc]

theorem merge_pdfs_state (files : List PdfFile) (mergedPath : List Nat) :
    (merge_pdfs files mergedPath).2 =
      { appended := (pySortedBy pdfKey files).filter opensEventually,
        success := ((pySortedBy pdfKey files).filter opensEventually).length,
        failed := (pySortedBy pdfKey files).filter (fun f => !(opensEventually f)),
        repaired :=
          (pySortedBy pdfKey files).filter
            (fun f => !f.open1 && (f.repairOk && f.open2)) } := by
  unfold merge_pdfs mergeFinish
  rw [mergeStep_foldl]
  by_cases h : (((pySortedBy pdfKey files).filter opensEventually).length = 0) <;>
    simp [h]

theorem merge_pdfs_fst (files : List PdfFile) (mergedPath : List Nat) :
    (merge_pdfs files mergedPath).1 =
      if ((pySortedBy pdfKey files).filter opensEventually).length = 0 then none
      else some mergedPath := by
  unfold merge_pdfs mergeFinish
  rw [mergeStep_foldl]
  by_cases h : (((pySortedBy pdfKey files).filter opensEventually).length = 0) <;>
    simp [h]

/-- Claim C3: whenever at least one input PDF eventually opens (directly or
after repair), `merge_pdfs` writes the merged output and returns its path;
exactly the pages that fail both the first open and the post-repair retry
are recorded as failed and excluded from the appended sequence; the reported
success count is the number of appended pages. -/
theorem c3_merge_partial_failure (files : List PdfFile) (mergedPath : List Nat)
    (h : ∃ f ∈ files, opensEventually f = true) :
    (merge_pdfs files mergedPath).1 = some mergedPath
    ∧ (merge_pdfs files mergedPath).2.appended
        = (pySortedBy pdfKey files).filter opensEventually
    ∧ (merge_pdfs files mergedPath).2.failed
        = (pySortedBy pdfKey files).filter (fun f => !(opensEventually f))
    ∧ (merge_pdfs files mergedPath).2.success
        = ((pySortedBy pdfKey files).filter opensEventually).length := by
  obtain ⟨f, hf, hfo⟩ := h
  have hmem : f ∈ pySortedBy pdfKey files :=
    ((pySortedBy_perm pdfKey files).mem_iff).2 hf
  have hmemf : f ∈ (pySortedBy pdfKey files).filter opensEventually :=
    List.mem_filter.2 ⟨hmem, hfo⟩
  have hlen : ((pySortedBy pdfKey files).filter opensEventually).length ≠ 0 := by
    intro hz
    rw [List.length_eq_zero] at hz
    rw [hz] at hmemf
    exact (List.not_mem_nil f) hmemf
  refine ⟨?_, ?_, ?_, ?_⟩
  · unfold merge_pdfs mergeFinish
    rw [mergeStep_foldl]
    simp [hlen]
  · rw [merge_pdfs_state]
  · rw [merge_pdfs_state]
  · rw [merge_pdfs_state]

/-- Concrete instantiation of C3: one healthy page and one unrecoverable
page; the merge still returns the output path. -/
theorem c3_merge_partial_failure_witness :
    (merge_pdfs [⟨codes "page_1.pdf", true, false, false⟩,
        ⟨codes "page_2.pdf", false, false, false⟩] (codes "book.pdf")).1
      = some (codes "book.pdf") :=
  (c3_merge_partial_failure
    [⟨codes "page_1.pdf", true, false, false⟩,
     ⟨codes "page_2.pdf", false, false, false⟩] (codes "book.pdf")
    ⟨⟨codes "page_1.pdf", true, false, false⟩, by decide, by decide⟩).1

/-- Claim C9: `merge_pdfs` returns `None` exactly when nothing was appended
(the success count is zero, which includes the empty input), and produces the
merged path exactly when at least one page PDF was appended. -/
theorem c9_merge_none_iff_no_success (files : List PdfFile) (mergedPath : List Nat) :
    ((merge_pdfs files mergedPath).1 = none
      ↔ (merge_pdfs files mergedPath).2.appended = [])
    ∧ ((merge_pdfs files mergedPath).1 = some mergedPath
      ↔ 0 < (merge_pdfs files mergedPath).2.success)
    ∧ (merge_pdfs [] mergedPath).1 = none := by
  refine ⟨?_, ?_, rfl⟩
  · rw [merge_pdfs_fst, merge_pdfs_state]
    by_cases h : (((pySortedBy pdfKey files).filter opensEventually).length = 0)
    · simp [h, List.length_eq_zero.1 h]
    · simp [h]
      have hne : (List.filter opensEventually (pySortedBy pdfKey files)) ≠ [] := by
        intro hz
        rw [hz] at h
        simp at h
      obtain ⟨x, hx⟩ := List.exists_mem_of_ne_nil _ hne
      exact ⟨x, (List.mem_filter.1 hx).1, (List.mem_filter.1 hx).2⟩
  · rw [merge_pdfs_fst, merge_pdfs_state]
    by_cases h : (((pySortedBy pdfKey files).filter opensEventually).length = 0)
    · simp [h]
    · simp [h]
      omega

/-- Outcome of the first `open(text_file, 'r', encoding='utf-8').read()` in
`merge_text_files` (`img_to_pdf.py` line 243): the decoded content, a
`UnicodeDecodeError`, or any other exception (e.g. `FileNotFoundError` or
`PermissionError` from `open`) — Python distinguishes these classes and so
does the `except UnicodeDecodeError` handler. -/
inductive Read8 where
  | ok (content : List Nat)
  | decodeErr
  | osErr
deriving DecidableEq, Repr

/-- A per-page text file as `merge_text_files` sees it: its path string, the
outcome of the UTF-8 read and the outcome of the cp949 retry (`none` when
that retry raises; the retry's handler catches every exception). -/
structure TxtFile where
  name : List Nat
  utf8 : Read8
  cp949 : Option (List Nat)
deriving DecidableEq, Repr

/-- The placeholder line written for a file that fails both reads
(`img_to_pdf.py` line 252). -/
def placeholderLine (name : List Nat) : List Nat :=
  codes "[파일 읽기 오류: " ++ name ++ codes "]\n"

/-- What one loop iteration of `merge_text_files` contributes to the output
file: `some` content written, or `none` when the iteration raises an
exception that no handler catches (`img_to_pdf.py` lines 242-252). -/
def readPiece (f : TxtFile) : Option (List Nat) :=
  match f.utf8 with
  | Read8.ok c => some c
  | Read8.decodeErr =>
    match f.cp949 with
    | some c => some c
    | none => some (placeholderLine f.name)
  | Read8.osErr => none

def txtKey (f : TxtFile) : List NKey := natural_sort_key (PathOrStr.strArg f.name)

/-- The writing loop of `merge_text_files`: accumulate the output file's
content; an uncaught exception aborts the function (modelled as
`Except.error` carrying the offending file's name). -/
def mergeTextGo : List TxtFile → List Nat → Except (List Nat) (List Nat)
  | [], acc => Except.ok acc
  | f :: fs, acc =>
    match readPiece f with
    | some c => mergeTextGo fs (acc ++ c)
    | none => Except.error f.name

/-- Embedding of `merge_text_files` (`img_to_pdf.py` lines 225-255): write
the pieces of the naturally sorted inputs into the merged file. -/
def merge_text_files (files : List TxtFile) : Except (List Nat) (List Nat) :=
  mergeTextGo (pySortedBy txtKey files) []

theorem mergeTextGo_ok (l : List TxtFile) (h : ∀ f ∈ l, f.utf8 ≠ Read8.osErr) :
    ∀ acc : List Nat,
      mergeTextGo l acc = Except.ok (acc ++ l.foldl (fun o f => o ++ (readPiece f).getD []) []) := by
  induction l with
  | nil => intro acc; simp [mergeTextGo]
  | cons f fs ih =>
    intro acc
    have hf : f.utf8 ≠ Read8.osErr := h f (by simp)
    have hsome : ∃ c, readPiece f = some c := by
      unfold readPiece
      cases hu : f.utf8 with
      | ok c => exact ⟨c, rfl⟩
      | decodeErr =>
        cases h9 : f.cp949 with
        | some c => exact ⟨c, rfl⟩
        | none => exact ⟨placeholderLine f.name, rfl⟩
      | osErr => exact absurd hu hf
    obtain ⟨c, hc⟩ := hsome
    simp only [mergeTextGo, hc]
    rw [ih (fun g hg => h g (by simp [hg])) (acc ++ c)]
    have hshift : ∀ (rest : List TxtFile) (a b : List Nat),
        rest.foldl (fun o f => o ++ (readPiece f).getD []) (a ++ b)
          = a ++ rest.foldl (fun o f => o ++ (readPiece f).getD []) b := by
      intro rest
      induction rest with
      | nil => intro a b; simp
      | cons g gs ihg =>
        intro a b
        simp only [List.foldl]
        rw [List.append_assoc, ihg]
    congr 1
    rw [List.append_assoc]
    congr 1
    have := hshift fs c []
    simp at this
    rw [← this]
    simp [hc]

/-- Counterexample to C4 as stated: a file whose first read fails with a
non-decode error (an OS-level unreadable file, e.g. missing or without read
permission) is not caught by the `except UnicodeDecodeError` handler, so
`merge_text_files` raises instead of substituting a placeholder. -/
theorem c4_merge_text_counterexample :
    merge_text_files [⟨codes "page_1.txt", Read8.osErr, none⟩]
      = Except.error (codes "page_1.txt") := by
  rfl

/-- Claim C4 (amended): provided every failing read fails with a decode
error, `merge_text_files` never raises; it writes the files in natural-sort
order, each contributing its UTF-8 content, else its cp949 content on a
decode failure, else a placeholder line naming the file when the retry also
fails. -/
theorem c4_merge_text_amended (files : List TxtFile)
    (h : ∀ f ∈ files, f.utf8 ≠ Read8.osErr) :
    merge_text_files files
      = Except.ok
          ((pySortedBy txtKey files).foldl (fun o f => o ++ (readPiece f).getD []) [])
    ∧ (∀ (f : TxtFile) (c : List Nat), f.utf8 = Read8.ok c → readPiece f = some c)
    ∧ (∀ (f : TxtFile) (c : List Nat), f.utf8 = Read8.decodeErr →
        f.cp949 = some c → readPiece f = some c)
    ∧ (∀ f : TxtFile, f.utf8 = Read8.decodeErr → f.cp949 = none →
        readPiece f = some (placeholderLine f.name)) := by
  refine ⟨?_, ?_, ?_, ?_⟩
  · unfold merge_text_files
    rw [mergeTextGo_ok _ (fun f hf => h f (((pySortedBy_perm txtKey files).mem_iff).1 hf))]
    simp
  · intro f c hc
    simp [readPiece, hc]
  · intro f c h1 h2
    simp [readPiece, h1, h2]
  · intro f h1 h2
    simp [readPiece, h1, h2]

/-- Concrete instantiation of amended C4: a UTF-8 page, a cp949 page and a
doubly unreadable page merge into content, fallback content and a
placeholder, in natural-sort order, without raising. -/
theorem c4_merge_text_amended_witness :
    merge_text_files
        [⟨codes "page_2.txt", Read8.decodeErr, some (codes "two ")⟩,
         ⟨codes "page_1.txt", Read8.ok (codes "one "), none⟩,
         ⟨codes "page_3.txt", Read8.decodeErr, none⟩]
      = Except.ok
          (codes "one " ++ (codes "two " ++ placeholderLine (codes "page_3.txt"))) := by
  have h := (c4_merge_text_amended
    [⟨codes "page_2.txt", Read8.decodeErr, some (codes "two ")⟩,
     ⟨codes "page_1.txt", Read8.ok (codes "one "), none⟩,
     ⟨codes "page_3.txt", Read8.decodeErr, none⟩] (by decide)).1
  rw [h]
  rfl

/-- Outcome of `run_tesseract` inside `repair_corrupted_pdf`
(`img_to_pdf.py` line 127): either the subprocess returns normally (`ok`) or
it raises (`err`, e.g. `CalledProcessError`); in both cases the fields say
which output files tesseract wrote before returning (`none` = file not
created). File contents are abstracted as `Nat`. -/
inductive TessOutcome where
  | ok (pdfC txtC : Option Nat)
  | err (pdfC txtC : Option Nat)
deriving DecidableEq, Repr

/-- The slice of the file system `repair_corrupted_pdf` touches for one page:
the same-stem source image, the page PDF and text file, and their `.backup`
twins.  `none` means the file does not exist. -/
structure PageFS where
  image : Option Nat
  pdf : Option Nat
  txt : Option Nat
  backupPdf : Option Nat
  backupTxt : Option Nat
deriving DecidableEq, Repr

/-- Embedding of `repair_corrupted_pdf` (`img_to_pdf.py` lines 106-154).
`valid` is the oracle for `check_pdf_integrity` on a PDF content (open plus
first-page text extraction), `t` the oracle for the tesseract run.  Returns
the function's boolean result and the resulting file state.  Control flow is
translated line by line: rename originals to backups; run tesseract; on a
normal return, check both outputs exist and the new PDF passes the integrity
check, deleting the backups on success and merely returning `False`
otherwise; on an exception, restore each backup only if the original path is
free, then return `False`. -/
def repair_corrupted_pdf (valid : Nat → Bool) (t : TessOutcome) (fs : PageFS) :
    Bool × PageFS :=
  match fs.image with
  | none => (false, fs)
  | some _ =>
    let fs1 := if fs.pdf.isSome then { fs with backupPdf := fs.pdf, pdf := none } else fs
    let fs2 :=
      if fs1.txt.isSome then { fs1 with backupTxt := fs1.txt, txt := none } else fs1
    match t with
    | TessOutcome.ok pdfC txtC =>
      let fs3 := { fs2 with
        pdf := match pdfC with | some c => some c | none => fs2.pdf,
        txt := match txtC with | some c => some c | none => fs2.txt }
      match fs3.pdf, fs3.txt with
      | some c, some _ =>
        if valid c then (true, { fs3 with backupPdf := none, backupTxt := none })
        else (false, fs3)
      | _, _ => (false, fs3)
    | TessOutcome.err pdfC txtC =>
      let fs3 := { fs2 with
        pdf := match pdfC with | some c => some c | none => fs2.pdf,
        txt := match txtC with | some c => some c | none => fs2.txt }
      let fs4 :=
        if fs3.backupPdf.isSome && fs3.pdf.isNone then
          { fs3 with pdf := fs3.backupPdf, backupPdf := none }
        else fs3
      let fs5 :=
        if fs4.backupTxt.isSome && fs4.txt.isNone then
          { fs4 with txt := fs4.backupTxt, backupTxt := none }
        else fs4
      (false, fs5)

/-- Claim C2 evaluated at the failing input: the source image exists, the
original page artifacts are PDF content `1` and text content `2`, tesseract
regenerates contents `3`/`4`, and the integrity check rejects the new PDF
(only content `0` is valid).  Repair returns `False`, yet the page's PDF and
text now hold the regenerated invalid contents and the originals are left
stranded in the `.backup` files — nothing is restored. -/
theorem c2_repair_failure_eval :
    repair_corrupted_pdf (fun c => decide (c = 0))
        (TessOutcome.ok (some 3) (some 4))
        ⟨some 5, some 1, some 2, none, none⟩
      = (false, ⟨some 5, some 3, some 4, some 1, some 2⟩)
    ∧ (repair_corrupted_pdf (fun c => decide (c = 0))
        (TessOutcome.ok (some 3) (some 4))
        ⟨some 5, some 1, some 2, none, none⟩).2.pdf ≠ some 1 := by
  refine ⟨rfl, ?_⟩
  decide

/-- One discovered image in directory mode of `img_to_pdf.main`: its stem and
whether its per-page PDF and text outputs already exist. -/
structure DirPage where
  stem : List Nat
  pdfExists : Bool
  txtExists : Bool
deriving DecidableEq, Repr

/-- The state-changing actions of the directory branch of `img_to_pdf.main`:
a tesseract run on one image, the PDF merge, the text merge. -/
inductive DirEv where
  | tess (stem : List Nat)
  | mergePdfCall
  | mergeTextCall
deriving DecidableEq, Repr

/-- Embedding of the directory branch of `img_to_pdf.main` (`img_to_pdf.py`
lines 331-391) as the trace of state-changing actions it performs. `pages`
is the naturally sorted glob result; the two booleans say whether the merged
PDF/text files named after the input directory already exist. The
early-return check (lines 358-361) precedes the per-image OCR loop and both
merge invocations; inside the loop a page with both outputs present is
skipped; the merges run iff the generated lists are nonempty, which holds
iff any image was found. -/
def mainDirEvents (mergedPdfExists mergedTxtExists : Bool)
    (pages : List DirPage) : List DirEv :=
  if mergedPdfExists && mergedTxtExists then []
  else
    (pages.filterMap fun p =>
      if p.pdfExists && p.txtExists then none else some (DirEv.tess p.stem))
    ++ (if pages.isEmpty then [] else [DirEv.mergePdfCall, DirEv.mergeTextCall])

/-- Claim C5: when both merged outputs named after the input directory
already exist, directory-mode `main` returns before invoking tesseract on
any image and before either merge call: the action trace is empty, so the
re-run changes no files. -/
theorem c5_merge_idempotent (mergedPdfExists mergedTxtExists : Bool)
    (pages : List DirPage)
    (hp : mergedPdfExists = true) (ht : mergedTxtExists = true) :
    mainDirEvents mergedPdfExists mergedTxtExists pages = [] := by
  subst hp
  subst ht
  simp [mainDirEvents]

/-- Concrete instantiation of C5: two pages, one not yet OCRed, but both
merged outputs present — nothing happens. -/
theorem c5_merge_idempotent_witness :
    mainDirEvents true true
      [⟨codes "page_1", false, false⟩, ⟨codes "page_2", true, true⟩] = [] :=
  c5_merge_idempotent true true
    [⟨codes "page_1", false, false⟩, ⟨codes "page_2", true, true⟩] rfl rfl

/-- The worker flag pair read under the mutex (`gui.py` lines 49-51). -/
structure WorkerFlags where
  paused : Bool
  running : Bool
deriving DecidableEq, Repr

/-- Embedding of `Worker._check_pause` (`gui.py` lines 75-90) over the
sequence of flag states its lock sections observe: each loop iteration reads
the state twice — first for the `_is_paused` check that returns `True`
(worker goes on), then after the 100 ms sleep for the `_is_running` check
that returns `False` (worker stops).  `none` means the observation sequence
ran out with the loop still spinning. -/
def checkPauseRun : List WorkerFlags → Option Bool
  | [] => none
  | s1 :: rest =>
    if s1.paused = false then some true
    else
      match rest with
      | [] => none
      | s2 :: rest2 =>
        if s2.running = false then some false else checkPauseRun rest2

/-- The state written by `Worker.stop` (`gui.py` lines 66-73): one atomic
mutex-guarded write clearing both flags; every later read observes it. -/
def stoppedFlags : WorkerFlags := ⟨false, false⟩

/-- The state while the worker is paused and not yet stopped. -/
def pausedFlags : WorkerFlags := ⟨true, true⟩

/-- Actions `Worker.cleanup_processes` (`gui.py` lines 240-251) applies to
one tracked subprocess: a live process is terminated, then killed if it
outlives the 2-second grace wait; a finished process is skipped. -/
inductive PAct where
  | terminate
  | kill
deriving DecidableEq, Repr

/-- A tracked subprocess: whether `poll()` reports it still running, and
whether it exits within the 2-second `wait` after `terminate`. -/
structure Proc where
  alive : Bool
  exitsInGrace : Bool
deriving DecidableEq, Repr

def procCleanupActs (p : Proc) : List PAct :=
  if p.alive then
    if p.exitsInGrace then [PAct.terminate] else [PAct.terminate, PAct.kill]
  else []

/-- Embedding of `Worker.cleanup_processes`: the per-process action lists. -/
def cleanup_processes (ps : List Proc) : List (Proc × List PAct) :=
  ps.map fun p => (p, procCleanupActs p)

/-- Claim C6 evaluated on the code.  `stop()` during pause does terminate
every tracked live subprocess (terminate, then kill after the grace window)
and the pause loop always exits; and in the interleaving where the stop
lands during the sleep, the running-check sees it and `_check_pause` returns
`False`.  But when the stop lands between an iteration's running-check and
the next iteration's paused-check, the paused-check observes
`_is_paused == False` first and `_check_pause` returns `True`, upon which
`run` launches the next pipeline stage instead of returning: the worker does
not reach the Stopped state. -/
theorem c6_stop_while_paused_eval :
    cleanup_processes [⟨true, false⟩, ⟨true, true⟩, ⟨false, true⟩]
      = [(⟨true, false⟩, [PAct.terminate, PAct.kill]),
         (⟨true, true⟩, [PAct.terminate]),
         (⟨false, true⟩, [])]
    ∧ checkPauseRun [pausedFlags, stoppedFlags] = some false
    ∧ checkPauseRun [pausedFlags, pausedFlags, stoppedFlags, stoppedFlags]
        = some true :=
  ⟨rfl, rfl, rfl⟩

/-- Digit characters of `n` written in decimal, accumulator style; the fuel
argument only ensures structural recursion and any value above `n` is
enough. -/
def natReprGo : Nat → Nat → List Nat → List Nat
  | 0, _, acc => acc
  | fuel + 1, n, acc =>
    if n < 10 then (48 + n) :: acc
    else natReprGo fuel (n / 10) ((48 + n % 10) :: acc)

/-- Python `str(n)` for a nonnegative integer, as code points. -/
def natRepr (n : Nat) : List Nat := natReprGo (n + 1) n []

/-- Number of decimal digits of `n`, i.e. Python `len(str(n))`. -/
def numDigits (n : Nat) : Nat :=
  if n < 10 then 1 else numDigits (n / 10) + 1
termination_by n
decreasing_by
  exact Nat.div_lt_self (by omega) (by omega)

theorem natReprGo_length : ∀ n fuel acc, n < fuel →
    (natReprGo fuel n acc).length = numDigits n + acc.length := by
  intro n
  induction n using Nat.strong_induction_on with
  | _ n ih =>
    intro fuel acc h
    cases fuel with
    | zero => omega
    | succ f =>
      unfold natReprGo
      by_cases h10 : n < 10
      · rw [if_pos h10]
        unfold numDigits
        rw [if_pos h10]
        simp
        omega
      · rw [if_neg h10]
        rw [ih (n / 10) (by omega) f _ (by omega)]
        conv_rhs => unfold numDigits
        rw [if_neg h10]
        simp
        omega

theorem numDigits_pos (n : Nat) : 0 < numDigits n := by
  unfold numDigits
  by_cases h : n < 10 <;> simp [h]

theorem numDigits_mono : ∀ n m : Nat, m ≤ n → numDigits m ≤ numDigits n := by
  intro n
  induction n using Nat.strong_induction_on with
  | _ n ih =>
    intro m hmn
    by_cases hn : n < 10
    · have hm : m < 10 := by omega
      unfold numDigits
      simp [hn, hm]
    · by_cases hm : m < 10
      · have h1 : numDigits m = 1 := by unfold numDigits; simp [hm]
        rw [h1]
        exact numDigits_pos n
      · have e1 : numDigits n = numDigits (n / 10) + 1 := by
          conv_lhs => unfold numDigits
          rw [if_neg hn]
        have e2 : numDigits m = numDigits (m / 10) + 1 := by
          conv_lhs => unfold numDigits
          rw [if_neg hm]
        rw [e1, e2]
        have := ih (n / 10) (Nat.div_lt_self (by omega) (by omega)) (m / 10)
          (Nat.div_le_div_right hmn)
        omega

theorem natRepr_length (n : Nat) : (natRepr n).length = numDigits n := by
  unfold natRepr
  rw [natReprGo_length n (n + 1) [] (by omega)]
  simp

theorem natRepr_length_mono {m n : Nat} (h : m ≤ n) :
    (natRepr m).length ≤ (natRepr n).length := by
  rw [natRepr_length, natRepr_length]
  exact numDigits_mono n m h

/-- Python format `f'{n:0{w}d}'` for a nonnegative value: the decimal digits
left-padded with zero characters to width `w`. -/
def pyFormat0pad (w n : Nat) : List Nat :=
  List.replicate (w - (natRepr n).length) 48 ++ natRepr n

/-- Embedding of the capture loop of `scr_to_img.main` (`scr_to_img.py`
lines 426-441): `pad = len(str(args.end))`, then one output filename per
loop index `i` in `range(end - start + 1)`, naming page `i + start` as
`f'{title}_{page:0{pad}d}.png'`.  Page numbers are nonnegative (`Nat`); the
truncated `end + 1 - start` coincides with Python's empty `range` when
`start > end`. -/
def capture_filenames (title : List Nat) (s e : Nat) : List (List Nat) :=
  (List.range (e + 1 - s)).map fun i =>
    title ++ [95] ++ pyFormat0pad (natRepr e).length (i + s) ++ codes ".png"

/-- Claim C7: for `start ≤ end` the capture loop produces exactly
`end - start + 1` filenames; the `i`-th names page `start + i` (so the pages
run from `start` to `end` in increasing order) following the template
`{title}_{page:0pad}.png`; and for every page in range the formatted page
field is zero-padded to exactly the digit count of `end`. -/
theorem c7_capture_names (title : List Nat) (s e : Nat) (h : s ≤ e) :
    (capture_filenames title s e).length = e - s + 1
    ∧ (∀ i, i < e - s + 1 →
        (capture_filenames title s e)[i]? =
          some (title ++ [95] ++ pyFormat0pad (natRepr e).length (i + s)
            ++ codes ".png"))
    ∧ (∀ p, s ≤ p → p ≤ e →
        (pyFormat0pad (natRepr e).length p).length = (natRepr e).length) := by
  refine ⟨?_, ?_, ?_⟩
  · unfold capture_filenames
    simp
    omega
  · intro i hi
    unfold capture_filenames
    rw [List.getElem?_map, List.getElem?_range (by omega)]
    rfl
  · intro p hsp hpe
    unfold pyFormat0pad
    have := natRepr_length_mono hpe
    simp
    omega

/-- Concrete instantiation of C7: the range 8..12 of book pages yields five
files; the second one is page 9, zero-padded to the two digits of 12. -/
theorem c7_capture_names_witness :
    (capture_filenames (codes "book") 8 12).length = 12 - 8 + 1
    ∧ (capture_filenames (codes "book") 8 12)[1]?
        = some (codes "book" ++ [95] ++ pyFormat0pad (natRepr 12).length (1 + 8)
            ++ codes ".png")
    ∧ (pyFormat0pad (natRepr 12).length 9).length = (natRepr 12).length :=
  ⟨(c7_capture_names (codes "book") 8 12 (by decide)).1,
   (c7_capture_names (codes "book") 8 12 (by decide)).2.1 1 (by decide),
   (c7_capture_names (codes "book") 8 12 (by decide)).2.2 9 (by decide) (by decide)⟩

/-- How the iteration of the streaming API response ends in
`TextExtractor.process_file` (`input_to_txt.py` lines 203-246): normal
completion, a `json.JSONDecodeError`, or any other exception. -/
inductive StreamEnd where
  | done
  | jsonErr
  | otherErr
deriving DecidableEq, Repr

/-- The raw-response salvage source (`input_to_txt.py` lines 219-236):
`response._raw_response.text` is unavailable, or accessing and processing it
raises, or the regex finds the given already-unescaped `text` field matches
(the pattern requires one or more non-quote characters per match). -/
inductive RawResp where
  | unavailable
  | raisesErr
  | found (ms : List (List Nat))
deriving DecidableEq, Repr

/-- A streamed API response as the chunk loop sees it: the `text` of each
chunk delivered before the end (`none` when the chunk has no `text`
attribute or it is `None`), how the iteration ended, and the raw salvage
source. -/
structure ApiResponse where
  chunks : List (Option (List Nat))
  ending : StreamEnd
  raw : RawResp
deriving DecidableEq, Repr

/-- Text written to the output file by the chunk loop, in delivery order. -/
def chunksText : List (Option (List Nat)) → List Nat
  | [] => []
  | c :: cs => c.getD [] ++ chunksText cs

/-- The `content_saved` flag after the chunk loop: set as soon as some chunk
carried a non-`None` `text` — even an empty string. -/
def chunksSaved (cs : List (Option (List Nat))) : Bool :=
  cs.any (fun c => c.isSome)

/-- The error-marker line (`input_to_txt.py` line 246). -/
def errMarker : List Nat :=
  codes "Error processing document. The API response could not be parsed correctly.\n"

/-- Concatenation of the salvaged matches in order. -/
def joinTexts : List (List Nat) → List Nat
  | [] => []
  | m :: ms => m ++ joinTexts ms

/-- Content of the output file written by `TextExtractor.process_file`
(`input_to_txt.py` lines 200-248) as a function of the response: the chunk
loop writes every delivered chunk text; on a JSON error with nothing saved
the raw-response salvage writes the extracted matches when there are any;
finally the error marker is appended iff `content_saved` is still false. -/
def process_file_output (r : ApiResponse) : List Nat :=
  let written := chunksText r.chunks
  let saved := chunksSaved r.chunks
  match r.ending with
  | StreamEnd.done => if saved then written else written ++ errMarker
  | StreamEnd.otherErr => if saved then written else written ++ errMarker
  | StreamEnd.jsonErr =>
    if saved then written
    else
      match r.raw with
      | RawResp.unavailable => written ++ errMarker
      | RawResp.raisesErr => written ++ errMarker
      | RawResp.found ms =>
        if ms.isEmpty then written ++ errMarker
        else written ++ joinTexts ms

theorem chunksText_eq_nil : ∀ cs, chunksSaved cs = false → chunksText cs = [] := by
  intro cs
  induction cs with
  | nil => intro _; rfl
  | cons c cs ih =>
    intro h
    cases c with
    | some s => simp [chunksSaved] at h
    | none =>
      have h2 : chunksSaved cs = false := by
        revert h
        simp [chunksSaved]
      rw [show chunksText (none :: cs) = chunksText cs from rfl, ih h2]

theorem chunksText_ne_nil (cs : List (Option (List Nat)))
    (hs : chunksSaved cs = true)
    (hne : ∀ c ∈ cs, ∀ s, c = some s → s ≠ []) :
    chunksText cs ≠ [] := by
  induction cs with
  | nil => simp [chunksSaved] at hs
  | cons c cs ih =>
    cases c with
    | some s =>
      have hsne : s ≠ [] := hne (some s) (by simp) s rfl
      intro hcon
      rw [show chunksText (some s :: cs) = s ++ chunksText cs from rfl,
        List.append_eq_nil] at hcon
      exact hsne hcon.1
    | none =>
      have hs2 : chunksSaved cs = true := by
        revert hs
        simp [chunksSaved]
      intro hcon
      rw [show chunksText (none :: cs) = chunksText cs from rfl] at hcon
      exact ih hs2 (fun c hc => hne c (by simp [hc])) hcon

/-- Counterexample to C8 as stated: a single chunk whose `text` is the empty
string sets `content_saved` without writing anything; when the stream then
raises a JSON parse error, neither the salvage nor the error marker runs and
the output file is left empty. -/
theorem c8_stream_counterexample :
    process_file_output ⟨[some []], StreamEnd.jsonErr, RawResp.unavailable⟩ = []
    ∧ (⟨[some []], StreamEnd.jsonErr, RawResp.unavailable⟩ : ApiResponse).ending
        = StreamEnd.jsonErr :=
  ⟨rfl, rfl⟩

/-- Claim C8 (amended): on a JSON parse error, chunk content already written
is kept (no marker is appended once any chunk text was saved); if nothing
was saved, the salvage pass writes the raw-response matches when there are
any, and otherwise the file contains exactly the error-marker line; the file
is nonempty after the parse failure provided every delivered chunk text was
nonempty — a chunk carrying an empty text string counts as saved content
without writing anything, the one case where the file is left empty. -/
theorem c8_stream_amended (r : ApiResponse) (he : r.ending = StreamEnd.jsonErr) :
    (chunksSaved r.chunks = true → process_file_output r = chunksText r.chunks)
    ∧ (chunksSaved r.chunks = false → ∀ ms, r.raw = RawResp.found ms → ms ≠ [] →
        process_file_output r = chunksText r.chunks ++ joinTexts ms)
    ∧ (chunksSaved r.chunks = false →
        (r.raw = RawResp.unavailable ∨ r.raw = RawResp.raisesErr
          ∨ r.raw = RawResp.found []) →
        process_file_output r = errMarker)
    ∧ ((∀ c ∈ r.chunks, ∀ s, c = some s → s ≠ []) →
        (∀ ms, r.raw = RawResp.found ms → ∀ m ∈ ms, m ≠ []) →
        process_file_output r ≠ []) := by
  have p1 : chunksSaved r.chunks = true →
      process_file_output r = chunksText r.chunks := by
    intro hs
    unfold process_file_output
    rw [he]
    simp [hs]
  have p2 : chunksSaved r.chunks = false → ∀ ms, r.raw = RawResp.found ms →
      ms ≠ [] → process_file_output r = chunksText r.chunks ++ joinTexts ms := by
    intro hs ms hms hne
    unfold process_file_output
    rw [he, hms]
    simp [hs, hne]
  have p3 : chunksSaved r.chunks = false →
      (r.raw = RawResp.unavailable ∨ r.raw = RawResp.raisesErr
        ∨ r.raw = RawResp.found []) →
      process_file_output r = errMarker := by
    intro hs hraw
    unfold process_file_output
    rw [he]
    rcases hraw with h | h | h <;> rw [h] <;>
      simp [hs, chunksText_eq_nil r.chunks hs]
  refine ⟨p1, p2, p3, ?_⟩
  intro hchunks hraw
  by_cases hs : chunksSaved r.chunks = true
  · rw [p1 hs]
    exact chunksText_ne_nil r.chunks hs hchunks
  · have hsf : chunksSaved r.chunks = false := by
      cases hv : chunksSaved r.chunks with
      | false => rfl
      | true => exact absurd hv hs
    cases hr : r.raw with
    | unavailable =>
      rw [p3 hsf (Or.inl hr)]
      decide
    | raisesErr =>
      rw [p3 hsf (Or.inr (Or.inl hr))]
      decide
    | found ms =>
      cases ms with
      | nil =>
        rw [p3 hsf (Or.inr (Or.inr hr))]
        decide
      | cons m ms =>
        have hm : m ≠ [] := hraw (m :: ms) hr m (by simp)
        rw [p2 hsf (m :: ms) hr (by simp)]
        intro hcon
        rw [List.append_eq_nil,
          show joinTexts (m :: ms) = m ++ joinTexts ms from rfl,
          List.append_eq_nil] at hcon
        exact hm hcon.2.1

/-- Concrete instantiation of amended C8: a nonempty chunk arrived before the
parse error; the file keeps it and no marker is appended. -/
theorem c8_stream_amended_witness :
    process_file_output
        ⟨[some (codes "hello "), none], StreamEnd.jsonErr, RawResp.unavailable⟩
      = chunksText [some (codes "hello "), none] :=
  (c8_stream_amended
    ⟨[some (codes "hello "), none], StreamEnd.jsonErr, RawResp.unavailable⟩ rfl).1 rfl

end DocProc
